import Mathlib

set_option maxRecDepth 100000

/-!
Verification development for the client resource layer of the serverless
MariaDB storage engine: the remote pageserver/safekeeper clients, the
connection pool, the bounded page cache with LRU eviction and write-back,
and the asynchronous WAL append pipeline.

The C++ sources are shallowly embedded: machine integers become `Nat`
(with explicit `% 2 ^ w` where overflow matters), byte buffers become
`List Nat`, fallible calls return `Option` or an `Int` status mirroring
the C return conventions, and the network / libcurl / socket environment
is passed in explicitly as data (`HttpEnv`, `SKEnv`).
-/

namespace Serverless

/-- Page identifier from serverless_types.h:
`(timeline_id : uint64_t, page_number : uint32_t)`.
The 32-bit width of `page_number` is carried as a hypothesis
(`page_number < 2 ^ 32`) where it matters. -/
structure PageId where
  timeline_id : Nat
  page_number : Nat
deriving DecidableEq, Repr

/-- Timeline identifier from serverless_types.h (`uint64_t id`). -/
structure TimelineId where
  id : Nat
deriving DecidableEq, Repr

/-- WAL record from serverless_types.h:
`(lsn : uint64_t, length : uint32_t, data : const char*)`.
The byte buffer behind `data` is modelled as `List Nat`. -/
structure WalRecord where
  lsn : Nat
  length : Nat
  data : List Nat
deriving DecidableEq, Repr

/-- MariaDB page size (16KB), from safekeeper_client.cc (engine part). -/
def MARIADB_PAGE_SIZE : Nat := 16384

/-! ## Pageserver client (pageserver_client.cc)

`HttpEnv` packages the behaviour of the libcurl handle and of the remote
page service for one request: whether `curl_easy_init` succeeded, whether
`curl_easy_perform` returned `CURLE_OK`, the HTTP response code, and the
bytes delivered to `write_callback`.  `HttpResponse.data` stays `nullptr`
exactly when no byte was delivered, so the `response.data` null check of
the source corresponds to `body ≠ []`. -/

structure HttpEnv where
  curl_ok : Bool
  perform_ok : Bool
  response_code : Nat
  body : List Nat
deriving DecidableEq, Repr

/-- PageserverClient::make_http_request: fails when the curl handle is
null or the transfer fails; otherwise succeeds exactly for HTTP 200. -/
def make_http_request (env : HttpEnv) : Int :=
  if env.curl_ok = false then -1
  else if env.perform_ok = false then -1
  else if env.response_code = 200 then 0 else -1

/-- PageserverClient::read_page: on a successful request whose body is
non-empty and fits the buffer, copies the body and zero-pads the rest of
the buffer, returning the full buffer contents (`some`); every other case
is an error (`none`). -/
def read_page (env : HttpEnv) (buffer_size : Nat) : Option (List Nat) :=
  if make_http_request env = 0 ∧ env.body ≠ [] ∧ env.body.length ≤ buffer_size then
    some (env.body ++ List.replicate (buffer_size - env.body.length) 0)
  else none

/-! ## Safekeeper client (safekeeper_client.cc, client part)

`SKClient` is the connection state of one `SafekeeperClient`: the
`connected` flag and the socket descriptor (`socket_fd`, negative when
closed).  `SKEnv` packages the behaviour of the operating system and the
remote log service for one operation: whether establishing a TCP
connection would succeed (`connOk`, bundling `socket`, `inet_pton` and
`connect`), whether `send` transmits the full buffer (`sendOk`), and
what `recv` yields (`ack`: `none` for an error, `some s` for the bytes
received, with `some ""` standing for a zero-byte read). -/

structure SKClient where
  connected : Bool
  socket_fd : Int
deriving DecidableEq, Repr

structure SKEnv where
  connOk : Bool
  sendOk : Bool
  ack : Option (List Char)
deriving DecidableEq, Repr

/-- SafekeeperClient::establish_connection.  A fresh successful socket is
represented by descriptor 0. -/
def establish_connection (c : SKClient) (connOk : Bool) : Int × SKClient :=
  if c.connected then (0, c)
  else if connOk then (0, { connected := true, socket_fd := 0 })
  else (-1, { connected := false, socket_fd := -1 })

/-- SafekeeperClient::close_connection. -/
def close_connection (c : SKClient) : SKClient :=
  { connected := false, socket_fd := -1 }

/-- SafekeeperClient::reconnect_if_needed: reconnects only when the
`connected` flag is down, with exactly one `establish_connection` call. -/
def reconnect_if_needed (c : SKClient) (connOk : Bool) : Int × SKClient :=
  if c.connected = false then establish_connection c connOk
  else (0, c)

/-- SafekeeperClient::send_message: fails immediately when disconnected
or the socket is invalid; a short or failed `send` is an error.  The
connection state is left unchanged in every case. -/
def send_message (c : SKClient) (data : List Char) (sendOk : Bool) : Int × SKClient :=
  if c.connected = false ∨ c.socket_fd < 0 then (-1, c)
  else if sendOk then (0, c) else (-1, c)

/-- SafekeeperClient::receive_message: fails when disconnected or the
socket is invalid; otherwise reads at most `buffer_size - 1` bytes and
succeeds exactly when more than zero bytes arrive, returning the byte
count and the received data.  The connection state is not touched. -/
def receive_message (c : SKClient) (ack : Option (List Char)) (buffer_size : Nat) :
    Int × List Char :=
  if c.connected = false ∨ c.socket_fd < 0 then (-1, [])
  else
    match ack with
    | some s =>
        let received := s.take (buffer_size - 1)
        if received.length > 0 then ((received.length : Int), received)
        else (-1, [])
    | none => (-1, [])

/-- SafekeeperClient::serialize_append_request: snprintf of the JSON
append message into a 4096-byte buffer; `%.*s` prints the first
`record.length` bytes of the data.  Returns `none` when the formatted
message does not fit (`written >= buffer_size`). -/
def serialize_append_request (timeline_id : TimelineId) (record : WalRecord) :
    Option (List Char) :=
  let payload := (record.data.take record.length).map (fun b => Char.ofNat b)
  let s := "\x7b\"type\":\"append\",\"timeline_id\":".data ++
      Nat.toDigits 10 timeline_id.id ++
      ",\"lsn\":".data ++ Nat.toDigits 10 record.lsn ++
      ",\"length\":".data ++ Nat.toDigits 10 record.length ++
      ",\"data\":\"".data ++ payload ++ "\"\x7d".data
  if s.length < 4096 then some s else none

/-- SafekeeperClient::deserialize_append_response: placeholder parse that
ignores the buffer, reports committed LSN 1 through its out-parameter and
returns status 0.  Modelled as `(status, committed_lsn)`. -/
def deserialize_append_response (buffer : List Char) : Int × Nat :=
  (0, 1)

/-- SafekeeperClient::append_wal_record: reconnect if needed, serialize,
send, block on the acknowledgment, parse it.  The parsed committed LSN is
a local variable of the source function; only the status of the parse is
returned to the caller. -/
def append_wal_record (c : SKClient) (env : SKEnv) (timeline_id : TimelineId)
    (record : WalRecord) : Int × SKClient :=
  let rc := reconnect_if_needed c env.connOk
  if rc.1 ≠ 0 then (-1, rc.2)
  else
    match serialize_append_request timeline_id record with
    | none => (-1, rc.2)
    | some req =>
        let sm := send_message rc.2 req env.sendOk
        if sm.1 ≠ 0 then (-1, sm.2)
        else
          let rm := receive_message sm.2 env.ack 1024
          if rm.1 < 0 then (-1, sm.2)
          else ((deserialize_append_response rm.2).1, sm.2)

/-! ## Async WAL append pipeline (safekeeper_client.cc, client part)

One `SafekeeperClient` owns one `append_queue` (a std::queue, pushed at
the back, popped at the front) and exactly one worker thread draining it.
`SKPipeline` is the queue together with the connection state the worker
uses. -/

structure SKPipeline where
  client : SKClient
  append_queue : List (TimelineId × WalRecord)
deriving DecidableEq, Repr

/-- SafekeeperClient::append_wal_record_async: allocates the request,
pushes it at the back of the queue, signals the worker and immediately
returns 0 ("Async, so return success immediately"). -/
def append_wal_record_async (p : SKPipeline) (timeline_id : TimelineId)
    (record : WalRecord) : Int × SKPipeline :=
  (0, { p with append_queue := p.append_queue ++ [(timeline_id, record)] })

/-- One iteration of SafekeeperClient::worker_thread_main when not shut
down: pop the front request (blocking while the queue is empty is the
identity here), run `process_append_request` — i.e. a synchronous
`append_wal_record` — store its status into the request object, and
delete the request.  The stored status dies with the request; only the
connection state and the shortened queue remain. -/
def worker_process_one (p : SKPipeline) (env : SKEnv) : SKPipeline :=
  match p.append_queue with
  | [] => p
  | (timeline_id, record) :: rest =>
      let res := append_wal_record p.client env timeline_id record
      { client := res.2, append_queue := rest }

/-- Interleaved history of one pipeline: caller enqueues and worker
iterations, in wall-clock order. -/
inductive PipeOp where
  | enqueue (timeline_id : TimelineId) (record : WalRecord)
  | work (env : SKEnv)
deriving DecidableEq, Repr

/-- Pipeline state extended with the log of appends the worker has issued
to the network, in issue order. -/
structure PipeTrace where
  pipe : SKPipeline
  issued : List (TimelineId × WalRecord)
deriving DecidableEq, Repr

def pipeStep (t : PipeTrace) (op : PipeOp) : PipeTrace :=
  match op with
  | .enqueue timeline_id record =>
      { t with pipe := (append_wal_record_async t.pipe timeline_id record).2 }
  | .work env =>
      match h : t.pipe.append_queue with
      | [] => t
      | req :: _ =>
          { pipe := worker_process_one t.pipe env, issued := t.issued ++ [req] }

def runPipe (t : PipeTrace) (ops : List PipeOp) : PipeTrace :=
  ops.foldl pipeStep t

/-- The records submitted by the caller, in submission order. -/
def submittedOf (ops : List PipeOp) : List (TimelineId × WalRecord) :=
  ops.filterMap (fun op =>
    match op with
    | .enqueue timeline_id record => some (timeline_id, record)
    | .work _ => none)

def initPipe (c : SKClient) : PipeTrace :=
  { pipe := { client := c, append_queue := [] }, issued := [] }

/-! ## Connection pool (connection_pool.cc)

The pageserver and safekeeper sides of `ConnectionPool` are structurally
identical, so one state shape serves both.  Connections are identified by
`Nat` ids; `available` is the FIFO `available_*_connections` std::queue
(front first) and `allConns` the managed `all_*_connections` vector.
`acquireConn`'s `createOk` tells whether `create_*_connection` would
succeed, and `newId` is the identity of the freshly created client. -/

structure PoolSide where
  available : List Nat
  allConns : List Nat
  maxConns : Nat
  requests : Nat
  hits : Nat
deriving DecidableEq, Repr

/-- Body shared by ConnectionPool::get_pageserver_connection and
ConnectionPool::get_safekeeper_connection: bump the request counter;
hand out the front available connection when one exists within the
timeout (bumping the hit counter); on timeout create a fallback
connection when under the maximum, registering it in the managed list;
otherwise return null. -/
def acquireConn (st : PoolSide) (createOk : Bool) (newId : Nat) :
    Option Nat × PoolSide :=
  let st1 := { st with requests := st.requests + 1 }
  match st1.available with
  | c :: rest =>
      (some c, { st1 with available := rest, hits := st1.hits + 1 })
  | [] =>
      if st1.allConns.length < st1.maxConns ∧ createOk then
        (some newId, { st1 with allConns := st1.allConns ++ [newId] })
      else (none, st1)

def get_pageserver_connection (st : PoolSide) (createOk : Bool) (newId : Nat) :
    Option Nat × PoolSide :=
  acquireConn st createOk newId

def get_safekeeper_connection (st : PoolSide) (createOk : Bool) (newId : Nat) :
    Option Nat × PoolSide :=
  acquireConn st createOk newId

/-- Body shared by ConnectionPool::return_pageserver_connection and
ConnectionPool::return_safekeeper_connection: a connection found in the
managed list is pushed at the back of the available queue and removed
from the managed list; an unknown pointer is only logged. -/
def returnConn (st : PoolSide) (c : Nat) : PoolSide :=
  if c ∈ st.allConns then
    { st with available := st.available ++ [c], allConns := st.allConns.erase c }
  else st

def return_pageserver_connection (st : PoolSide) (c : Nat) : PoolSide :=
  returnConn st c

def return_safekeeper_connection (st : PoolSide) (c : Nat) : PoolSide :=
  returnConn st c

/-! ## Page cache (safekeeper_client.cc, ha_serverless engine part)

`CachedPage` and the cache members of `ha_serverless` (ha_serverless.h):
`page_cache` is the `std::unordered_map<uint64_t, CachedPage*>` as an
association list, `lru_list` the `std::list<uint64_t>` with its front at
the head.  WAL traffic caused by write-backs is reported as a list of
`WalEvent`s. -/

def MAX_CACHED_PAGES : Nat := 1024

structure CachedPage where
  page_id : PageId
  data : List Nat
  lsn : Nat
  dirty : Bool
  last_access : Nat
deriving DecidableEq, Repr

structure HaState where
  page_cache : List (Nat × CachedPage)
  lru_list : List Nat
  current_timeline : TimelineId
  current_lsn : Nat
deriving DecidableEq, Repr

inductive WalEvent where
  | append (timeline : TimelineId) (lsn : Nat) (data : List Nat)
deriving DecidableEq, Repr

/-- ha_serverless::page_key: `(timeline_id << 32) | page_number` in
uint64 arithmetic. -/
def page_key (page_id : PageId) : Nat :=
  (page_id.timeline_id <<< 32) % 2 ^ 64 ||| page_id.page_number

/-- `page_cache.find(key)` on the association list. -/
def findPage (m : List (Nat × CachedPage)) (k : Nat) : Option CachedPage :=
  match m with
  | [] => none
  | e :: rest => if e.1 = k then some e.2 else findPage rest k

/-- `page_cache.erase(it)`: the map holds at most one entry per key, so
erasing the found entry is filtering the key out. -/
def eraseKey (m : List (Nat × CachedPage)) (k : Nat) : List (Nat × CachedPage) :=
  m.filter (fun e => e.1 ≠ k)

/-- `it->second->last_access = time(nullptr)` on a cache hit: refresh
the timestamp of the entry at `k`, touching nothing else — in
particular not `lru_list`. -/
def touchPage (m : List (Nat × CachedPage)) (k : Nat) (now : Nat) :
    List (Nat × CachedPage) :=
  m.map (fun e => if e.1 = k then (e.1, { e.2 with last_access := now }) else e)

/-- ha_serverless::write_page_to_safekeeper: lease a safekeeper client
from the pool (modelled as succeeding), build a WAL record carrying the
page bytes under the post-incremented `current_lsn`, and append it.  The
emitted `WalEvent.append` is the observable write-back. -/
def write_page_to_safekeeper (st : HaState) (page_id : PageId) (data : List Nat) :
    HaState × List WalEvent :=
  ({ st with current_lsn := st.current_lsn + 1 },
   [WalEvent.append st.current_timeline st.current_lsn data])

/-- ha_serverless::evict_page_from_cache: if the key is cached, write the
page back first when it is dirty (the status of the write-back is
ignored), then delete the entry; finally `lru_list.remove(page_key)`
drops every occurrence of the key from the recency list. -/
def evict_page_from_cache (st : HaState) (pkey : Nat) : HaState × List WalEvent :=
  match findPage st.page_cache pkey with
  | some page =>
      let flushed :=
        if page.dirty then write_page_to_safekeeper st page.page_id page.data
        else (st, [])
      ({ flushed.1 with
          page_cache := eraseKey flushed.1.page_cache pkey,
          lru_list := flushed.1.lru_list.filter (fun k => k ≠ pkey) },
       flushed.2)
  | none =>
      ({ st with lru_list := st.lru_list.filter (fun k => k ≠ pkey) }, [])

/-- ha_serverless::read_page_from_cache_or_pageserver.  `now` is
`time(nullptr)`; `fetched` is the outcome of the pooled
`read_page` call on a miss (`none` covers both a pool failure and a
fetch error).  On a hit the page bytes are copied out and the timestamp
refreshed; on a successfully fetched miss the cache evicts the back of
`lru_list` when at capacity (`lru_list.back()`, whose default value 0 is
never used because the list is non-empty whenever the cache is), then
inserts the new page at the front of `lru_list`. -/
def read_page_from_cache_or_pageserver (st : HaState) (page_id : PageId)
    (now : Nat) (fetched : Option (List Nat)) : Int × HaState × List WalEvent :=
  let key := page_key page_id
  match findPage st.page_cache key with
  | some _ =>
      (0, { st with page_cache := touchPage st.page_cache key now }, [])
  | none =>
      match fetched with
      | none => (-1, st, [])
      | some data =>
          let ev :=
            if MAX_CACHED_PAGES ≤ st.page_cache.length then
              evict_page_from_cache st (st.lru_list.getLastD 0)
            else (st, [])
          let newPage : CachedPage :=
            { page_id := page_id, data := data, lsn := 0, dirty := false,
              last_access := now }
          (0, { ev.1 with
                  page_cache := (key, newPage) :: ev.1.page_cache,
                  lru_list := key :: ev.1.lru_list },
           ev.2)

/-- ha_serverless::~ha_serverless: delete every cached page and clear the
containers.  No write-back happens here, dirty or not. -/
def ha_serverless_destruct (st : HaState) : HaState × List WalEvent :=
  ({ st with page_cache := [], lru_list := [] }, [])

/-- ha_serverless::close: walk the cache and write every dirty page back
to the safekeeper; entries stay cached and keep their dirty flag. -/
def ha_close (st : HaState) : HaState × List WalEvent :=
  st.page_cache.foldl
    (fun acc e =>
      if e.2.dirty then
        let w := write_page_to_safekeeper acc.1 e.2.page_id e.2.data
        (w.1, acc.2 ++ w.2)
      else acc)
    (st, [])

/-- One page-cache interaction, as driven through
`read_page_from_cache_or_pageserver`. -/
inductive CacheOp where
  | read (page_id : PageId) (now : Nat) (fetched : Option (List Nat))
deriving DecidableEq, Repr

def cacheStep (st : HaState) (op : CacheOp) : HaState :=
  match op with
  | .read page_id now fetched =>
      (read_page_from_cache_or_pageserver st page_id now fetched).2.1

def runCache (st : HaState) (ops : List CacheOp) : HaState :=
  ops.foldl cacheStep st

/-- Cache state of a freshly constructed handler (empty containers,
`current_lsn` starts at 0 in the constructor). -/
def initHa : HaState :=
  { page_cache := [], lru_list := [], current_timeline := ⟨0⟩, current_lsn := 0 }

/-- Structural invariant of the page cache: `lru_list` holds exactly the
keys of `page_cache` (a permutation), the keys are distinct, and the
cache is within its configured bound. -/
def CacheInv (st : HaState) : Prop :=
  st.lru_list.Perm (st.page_cache.map Prod.fst) ∧
  (st.page_cache.map Prod.fst).Nodup ∧
  st.page_cache.length ≤ MAX_CACHED_PAGES

/-- An empty clean page of timeline 0 cached under key `k` with
timestamp `t`. -/
def pageAt (k t : Nat) : CachedPage :=
  { page_id := ⟨0, k⟩, data := [], lsn := 0, dirty := false, last_access := t }

/-- Cache contents after `n` fresh insertions of pages `⟨0, k⟩` at times
`k = 0, …, n-1` (newest entry first, as inserted). -/
def fullCache (n : Nat) : List (Nat × CachedPage) :=
  (List.range n).reverse.map (fun k => (k, pageAt k k))

def fullState (n : Nat) : HaState :=
  { page_cache := fullCache n, lru_list := (List.range n).reverse,
    current_timeline := ⟨0⟩, current_lsn := 0 }

/-- `n` cache misses on pages `⟨0, 0⟩ … ⟨0, n-1⟩`, each fetched
successfully at time `k`. -/
def fillOps (n : Nat) : List CacheOp :=
  (List.range n).map (fun k => CacheOp.read ⟨0, k⟩ k (some []))

/-- Fill the cache to capacity, then hit page `⟨0, 0⟩` at time 5000:
its `last_access` becomes the newest while it stays at the back of
`lru_list`. -/
def ceState1 : HaState :=
  runCache initHa (fillOps MAX_CACHED_PAGES ++ [CacheOp.read ⟨0, 0⟩ 5000 none])

/-- One more miss at capacity: the eviction that it triggers. -/
def ceState2 : HaState :=
  cacheStep ceState1 (CacheOp.read ⟨0, 2000⟩ 5001 (some []))

/-- A cache state holding one dirty page, for the write-back claims. -/
def dirtyPageEx : CachedPage :=
  { page_id := ⟨0, 0⟩, data := [1, 2], lsn := 0, dirty := true, last_access := 7 }

def dirtyStateEx : HaState :=
  { page_cache := [(0, dirtyPageEx)], lru_list := [0],
    current_timeline := ⟨2⟩, current_lsn := 10 }

/-! ## Claim C3: read_page error contract -/

/-- Claim C3, counterexample: a successful HTTP exchange whose body is a
single byte — far shorter than a full 16 KiB page — is not reported as an
error: `read_page` zero-pads it and succeeds, where the claim demands
failure for any short response. -/
theorem read_page_short_response_accepted :
    read_page ⟨true, true, 200, [7]⟩ MARIADB_PAGE_SIZE
      = some (7 :: List.replicate 16383 0) ∧
    ([7] : List Nat).length < MARIADB_PAGE_SIZE := by
  exact ⟨rfl, by decide⟩

/-- Claim C3 (amended): `read_page` returns an error for a failed
request or non-success status, for an empty body, and for a body larger
than the buffer; every successful result is the response body zero-padded
to exactly the full buffer size, so the output is never partially
filled — but a response shorter than a full page is accepted and padded,
not rejected. -/
theorem read_page_error_contract (env : HttpEnv) :
    (make_http_request env ≠ 0 → read_page env MARIADB_PAGE_SIZE = none) ∧
    (env.body = [] → read_page env MARIADB_PAGE_SIZE = none) ∧
    (MARIADB_PAGE_SIZE < env.body.length → read_page env MARIADB_PAGE_SIZE = none) ∧
    (∀ out, read_page env MARIADB_PAGE_SIZE = some out →
      out = env.body ++ List.replicate (MARIADB_PAGE_SIZE - env.body.length) 0 ∧
      out.length = MARIADB_PAGE_SIZE) := by
  unfold read_page
  by_cases h : make_http_request env = 0 ∧ env.body ≠ [] ∧
      env.body.length ≤ MARIADB_PAGE_SIZE
  · rw [if_pos h]
    refine ⟨fun hne => absurd h.1 hne, fun he => absurd he h.2.1,
      fun hlt => absurd h.2.2 (by omega), ?_⟩
    intro out hout
    have hbody := h.2.2
    have : env.body ++ List.replicate (MARIADB_PAGE_SIZE - env.body.length) 0 = out :=
      Option.some.inj hout
    subst this
    exact ⟨rfl, by simp; omega⟩
  · rw [if_neg h]
    exact ⟨fun _ => rfl, fun _ => rfl, fun _ => rfl,
      fun out hout => absurd hout (by simp)⟩

/-- Claim C3, witness: a 500 status is an error. -/
theorem read_page_error_contract_witness :
    read_page ⟨true, true, 500, [1, 2]⟩ MARIADB_PAGE_SIZE = none :=
  (read_page_error_contract ⟨true, true, 500, [1, 2]⟩).1 (by decide)

/-! ## Claim C5: client connection state on failures -/

/-- Claim C5, counterexample: a failed send on a connected client
returns an error but leaves the client in the connected state, and the
next operation therefore performs no reconnect attempt at all (here even
an environment in which establishing a connection would fail yields a
successful no-op `reconnect_if_needed`). -/
theorem send_failure_keeps_connected :
    (send_message ⟨true, 0⟩ "x".data false).1 = -1 ∧
    (send_message ⟨true, 0⟩ "x".data false).2.connected = true ∧
    reconnect_if_needed (send_message ⟨true, 0⟩ "x".data false).2 false
      = (0, ⟨true, 0⟩) := by
  refine ⟨rfl, rfl, rfl⟩

/-- Claim C5 (amended): the connection state is binary (a single
`connected` flag), but a failed send or receive does NOT transition the
client to disconnected — `send_message` returns the state untouched in
every case and `receive_message` never writes the state at all; the next
operation attempts exactly one reconnect (`establish_connection`) only
when the flag is already down, and does nothing when it is up. -/
theorem client_failure_state_contract (c : SKClient) (data : List Char)
    (sendOk : Bool) (connOk : Bool) :
    (send_message c data sendOk).2 = c ∧
    (c.connected = true → reconnect_if_needed c connOk = (0, c)) ∧
    (c.connected = false → reconnect_if_needed c connOk = establish_connection c connOk) := by
  refine ⟨?_, ?_, ?_⟩
  · unfold send_message
    split
    · rfl
    · split <;> rfl
  · intro hc
    unfold reconnect_if_needed
    rw [hc]
    rfl
  · intro hc
    unfold reconnect_if_needed
    rw [hc]
    rfl

/-- Claim C5, witness. -/
theorem client_failure_state_contract_witness :
    (send_message ⟨true, 3⟩ "d".data false).2 = ⟨true, 3⟩ ∧
    reconnect_if_needed ⟨true, 3⟩ false = (0, ⟨true, 3⟩) :=
  ⟨(client_failure_state_contract ⟨true, 3⟩ "d".data false false).1,
   (client_failure_state_contract ⟨true, 3⟩ "d".data false false).2.1 rfl⟩

/-! ## Claim C9: injectivity of the packed cache key -/

/-- Claim C9: for `page_number < 2^32` and timeline ids that stay
distinct after the 32-bit left shift (in uint64 arithmetic), `page_key`
is injective. -/
theorem page_key_injective (p1 p2 : PageId)
    (h1 : p1.page_number < 2 ^ 32) (h2 : p2.page_number < 2 ^ 32)
    (hshift : (p1.timeline_id <<< 32) % 2 ^ 64 = (p2.timeline_id <<< 32) % 2 ^ 64 →
      p1.timeline_id = p2.timeline_id)
    (hkey : page_key p1 = page_key p2) : p1 = p2 := by
  have h64 : (2 : Nat) ^ 64 = 2 ^ 32 * 2 ^ 32 := by norm_num
  have decomp : ∀ t n : Nat, n < 2 ^ 32 →
      (t <<< 32) % 2 ^ 64 ||| n = 2 ^ 32 * (t % 2 ^ 32) + n := by
    intro t n hn
    rw [Nat.shiftLeft_eq, h64, Nat.mul_mod_mul_right,
      Nat.mul_comm (t % 2 ^ 32) (2 ^ 32), ← Nat.mul_add_lt_is_or hn]
  unfold page_key at hkey
  rw [decomp _ _ h1, decomp _ _ h2] at hkey
  have hp32 : (2 : Nat) ^ 32 = 4294967296 := by norm_num
  rw [hp32] at hkey h1 h2
  have hn : p1.page_number = p2.page_number := by omega
  have ha : p1.timeline_id % 4294967296 = p2.timeline_id % 4294967296 := by omega
  have ht : p1.timeline_id = p2.timeline_id := by
    apply hshift
    rw [Nat.shiftLeft_eq, Nat.shiftLeft_eq, h64, Nat.mul_mod_mul_right,
      Nat.mul_mod_mul_right, hp32, ha]
  cases p1
  cases p2
  simp_all

/-- Claim C9, witness. -/
theorem page_key_injective_witness : (⟨1, 5⟩ : PageId) = ⟨1, 5⟩ :=
  page_key_injective ⟨1, 5⟩ ⟨1, 5⟩ (by decide) (by decide) (fun _ => rfl) rfl

/-! ## Claim C6: pool acquire contract -/

/-- Claim C6: both pool acquires increment the request counter on every
call; when an available connection exists it is handed out and the hit
counter is incremented; on timeout a new connection is created and
returned exactly when the managed count is below the maximum and
creation succeeds, without touching the hit counter; otherwise the
result is null. -/
theorem acquire_contract (st : PoolSide) (createOk : Bool) (newId : Nat) :
    get_safekeeper_connection st createOk newId
      = get_pageserver_connection st createOk newId ∧
    (get_pageserver_connection st createOk newId).2.requests = st.requests + 1 ∧
    (∀ c rest, st.available = c :: rest →
      get_pageserver_connection st createOk newId =
        (some c,
          { st with available := rest, requests := st.requests + 1, hits := st.hits + 1 })) ∧
    (st.available = [] → st.allConns.length < st.maxConns → createOk = true →
      get_pageserver_connection st createOk newId =
        (some newId,
          { st with allConns := st.allConns ++ [newId], requests := st.requests + 1 })) ∧
    (st.available = [] → ¬(st.allConns.length < st.maxConns ∧ createOk = true) →
      get_pageserver_connection st createOk newId =
        (none, { st with requests := st.requests + 1 })) := by
  obtain ⟨av, all, mx, req, hi⟩ := st
  unfold get_pageserver_connection get_safekeeper_connection acquireConn
  refine ⟨rfl, ?_, ?_, ?_, ?_⟩
  · cases av with
    | nil =>
        by_cases h : all.length < mx ∧ createOk = true
        · simp [h]
        · simp [h]
    | cons c rest => simp
  · intro c rest hav
    subst hav
    simp
  · intro hav hlt hok
    subst hav
    simp [hlt, hok]
  · intro hav hno
    subst hav
    simp only [Bool.coe_iff_coe] at hno ⊢
    simp [hno]

/-- Claim C6, witness: a pool hit hands out the front available
connection; an empty pool at capacity returns null. -/
theorem acquire_contract_witness :
    get_pageserver_connection ⟨[1, 2], [1, 2], 20, 0, 0⟩ true 7
      = (some 1, ⟨[2], [1, 2], 20, 1, 1⟩) ∧
    get_pageserver_connection ⟨[], [4], 1, 5, 2⟩ true 7
      = (none, ⟨[], [4], 1, 6, 2⟩) :=
  ⟨(acquire_contract ⟨[1, 2], [1, 2], 20, 0, 0⟩ true 7).2.2.1 1 [2] rfl,
   (acquire_contract ⟨[], [4], 1, 5, 2⟩ true 7).2.2.2.2 rfl (by decide)⟩

/-! ## Claim C7: released connection and the next acquire -/

/-- Claim C7, counterexample: with two warm connections and no
contention, acquiring connection 1 and releasing it immediately does NOT
make it the next one returned: the release pushes it at the back of the
FIFO available queue, so the subsequent acquire returns connection 2. -/
theorem released_connection_not_next :
    (get_pageserver_connection ⟨[1, 2], [1, 2], 20, 0, 0⟩ true 99).1 = some 1 ∧
    return_pageserver_connection
        (get_pageserver_connection ⟨[1, 2], [1, 2], 20, 0, 0⟩ true 99).2 1
      = ⟨[2, 1], [2], 20, 1, 1⟩ ∧
    (get_pageserver_connection ⟨[2, 1], [2], 20, 1, 1⟩ true 99).1 = some 2 ∧
    (2 : Nat) ≠ 1 := by
  refine ⟨rfl, by decide, rfl, by decide⟩

/-- Claim C7 (amended): release appends the connection at the back of
the FIFO available queue, so an immediately following acquire reuses a
pooled connection (a hit, no new creation) but returns the queue front;
the exact released connection is the next one returned precisely when no
other connection was available. -/
theorem release_then_acquire_reuses (st : PoolSide) (c newId : Nat)
    (createOk : Bool) (hav : st.available = []) (hc : c ∈ st.allConns) :
    (get_pageserver_connection (return_pageserver_connection st c) createOk newId).1
      = some c ∧
    (get_pageserver_connection (return_pageserver_connection st c) createOk newId).2.hits
      = st.hits + 1 ∧
    (get_safekeeper_connection (return_safekeeper_connection st c) createOk newId).1
      = some c := by
  unfold get_pageserver_connection get_safekeeper_connection
    return_pageserver_connection return_safekeeper_connection returnConn acquireConn
  rw [if_pos hc]
  simp [hav]

/-- Claim C7, witness. -/
theorem release_then_acquire_reuses_witness :
    (get_pageserver_connection (return_pageserver_connection ⟨[], [5], 10, 3, 1⟩ 5)
        true 9).1 = some 5 :=
  (release_then_acquire_reuses ⟨[], [5], 10, 3, 1⟩ 5 9 true rfl (by decide)).1

/-! ## Claim C8: FIFO order of the async append pipeline -/

/-- Records already issued by the worker, followed by the records still
queued, always equal the full submission sequence in order: the worker
pops the queue front and the caller pushes at the back, so network
appends are issued exactly in submission order. -/
theorem runPipe_issue_invariant (ops : List PipeOp) :
    ∀ t : PipeTrace,
      (runPipe t ops).issued ++ (runPipe t ops).pipe.append_queue
        = t.issued ++ t.pipe.append_queue ++ submittedOf ops := by
  induction ops with
  | nil =>
      intro t
      simp [runPipe, submittedOf]
  | cons op rest ih =>
      intro t
      have hrun : runPipe t (op :: rest) = runPipe (pipeStep t op) rest := rfl
      rw [hrun, ih]
      cases op with
      | enqueue timeline_id record =>
          simp [pipeStep, append_wal_record_async, submittedOf, List.filterMap_cons]
      | work env =>
          obtain ⟨⟨cl, q⟩, issued⟩ := t
          cases q with
          | nil => simp [pipeStep, submittedOf, List.filterMap_cons]
          | cons req qrest =>
              obtain ⟨timeline_id, record⟩ := req
              simp [pipeStep, worker_process_one, submittedOf, List.filterMap_cons]

/-- Claim C8: for every interleaving of enqueues and worker iterations
on one pipeline, the appends the worker has issued to the network form a
prefix of the submission sequence — record A enqueued before record B is
always issued before B (FIFO). -/
theorem async_append_fifo (c : SKClient) (ops : List PipeOp) :
    (runPipe (initPipe c) ops).issued ++ (runPipe (initPipe c) ops).pipe.append_queue
      = submittedOf ops := by
  have h := runPipe_issue_invariant ops (initPipe c)
  simpa [initPipe] using h

/-! ## Claims C4 and C10: what the append paths return -/

/-- Reconnect on an already-connected client is a no-op. -/
theorem reconnect_if_needed_connected (c : SKClient) (connOk : Bool)
    (hc : c.connected = true) : reconnect_if_needed c connOk = (0, c) := by
  unfold reconnect_if_needed
  rw [hc]
  simp

/-- Send on a connected client with a valid socket only reports the
transmission outcome; the state is untouched. -/
theorem send_message_connected (c : SKClient) (d : List Char) (sendOk : Bool)
    (hc : c.connected = true) (hf2 : ¬c.socket_fd < 0) :
    send_message c d sendOk = (if sendOk then (0, c) else (-1, c)) := by
  unfold send_message
  rw [if_neg (by simp [hc, hf2])]

/-- Receive on a connected client with data arriving. -/
theorem receive_message_some (c : SKClient) (s : List Char) (bsz : Nat)
    (hc : c.connected = true) (hf2 : ¬c.socket_fd < 0)
    (hlen : 0 < (s.take (bsz - 1)).length) :
    receive_message c (some s) bsz
      = (((s.take (bsz - 1)).length : Int), s.take (bsz - 1)) := by
  unfold receive_message
  rw [if_neg (by simp [hc, hf2])]
  show (if 0 < (s.take (bsz - 1)).length
      then (((s.take (bsz - 1)).length : Int), s.take (bsz - 1)) else (-1, [])) = _
  rw [if_pos hlen]

/-- Receive on a connected client with a recv error. -/
theorem receive_message_none (c : SKClient) (bsz : Nat)
    (hc : c.connected = true) (hf2 : ¬c.socket_fd < 0) :
    receive_message c none bsz = (-1, []) := by
  unfold receive_message
  rw [if_neg (by simp [hc, hf2])]

/-- On a connected client with a valid socket, a synchronous append
leaves the connection state untouched whatever the network does: every
branch of `append_wal_record` returns the client it started from. -/
theorem append_wal_record_client_eq (c : SKClient) (env : SKEnv)
    (tl : TimelineId) (r : WalRecord) (hc : c.connected = true)
    (hf : 0 ≤ c.socket_fd) : (append_wal_record c env tl r).2 = c := by
  have hf2 : ¬c.socket_fd < 0 := not_lt.mpr hf
  cases hser : serialize_append_request tl r with
  | none =>
      unfold append_wal_record
      rw [hser]
      simp only [reconnect_if_needed_connected c env.connOk hc]
      norm_num
  | some req =>
      unfold append_wal_record
      rw [hser]
      simp only [reconnect_if_needed_connected c env.connOk hc]
      norm_num
      simp only [send_message_connected c req env.sendOk hc hf2]
      cases hsend : env.sendOk with
      | false => norm_num
      | true =>
          norm_num
          cases hack : env.ack with
          | none => simp [receive_message_none c 1024 hc hf2]
          | some s =>
              by_cases hlen : 0 < (s.take (1024 - 1)).length
              · simp only [receive_message_some c s 1024 hc hf2 hlen]
                have hnn : ¬(((s.take (1024 - 1)).length : Int) < 0) := by omega
                rw [if_neg hnn]
              · have hrm : receive_message c (some s) 1024 = (-1, []) := by
                  unfold receive_message
                  rw [if_neg (by simp [hc, hf2])]
                  show (if 0 < (s.take (1024 - 1)).length
                      then (((s.take (1024 - 1)).length : Int), s.take (1024 - 1))
                      else (-1, [])) = _
                  rw [if_neg hlen]
                simp [hrm]

/-- Claim C4, counterexample: a fully successful synchronous append
(connected client, full send, non-empty acknowledgment) returns status
0 to its caller, while the committed LSN that the response parse reports
(placeholder value 1) is stored in a local variable and discarded — the
returned value is not the committed LSN. -/
theorem append_wal_record_drops_lsn :
    (append_wal_record ⟨true, 0⟩ ⟨true, true, some "ok".data⟩ ⟨7⟩
        ⟨42, 3, [97, 98, 99]⟩).1 = 0 ∧
    (deserialize_append_response "ok".data).2 = 1 ∧
    (0 : Int) ≠ (1 : Nat) := by
  refine ⟨by decide, rfl, by decide⟩

/-- Claim C4 (amended): `append_wal_record` sends one serialized append
request and blocks for the acknowledgment; when no acknowledgment
arrives it returns -1, and on success it returns 0 — the status of the
response parse — while the committed LSN the parse reports (always 1,
from the placeholder) never reaches the caller. -/
theorem append_wal_record_returns_status (c : SKClient) (env : SKEnv)
    (tl : TimelineId) (r : WalRecord)
    (hc : c.connected = true) (hf : 0 ≤ c.socket_fd) :
    (env.ack = none → append_wal_record c env tl r = (-1, c)) ∧
    (∀ s req, env.ack = some s → 0 < (s.take (1024 - 1)).length →
      env.sendOk = true → serialize_append_request tl r = some req →
      append_wal_record c env tl r = (0, c) ∧
      (deserialize_append_response (s.take (1024 - 1))).2 = 1) := by
  have hf2 : ¬c.socket_fd < 0 := not_lt.mpr hf
  constructor
  · intro hack
    cases hser : serialize_append_request tl r with
    | none =>
        unfold append_wal_record
        rw [hser]
        simp only [reconnect_if_needed_connected c env.connOk hc]
        norm_num
    | some req =>
        unfold append_wal_record
        rw [hser]
        simp only [reconnect_if_needed_connected c env.connOk hc]
        norm_num
        simp only [send_message_connected c req env.sendOk hc hf2]
        cases hsend : env.sendOk with
        | false => norm_num
        | true =>
            norm_num
            rw [hack]
            rw [receive_message_none c 1024 hc hf2]
            norm_num
  · intro s req hack hlen hsend hser
    refine ⟨?_, rfl⟩
    unfold append_wal_record
    rw [hser, hsend, hack]
    simp only [reconnect_if_needed_connected c env.connOk hc]
    norm_num
    simp only [send_message_connected c req true hc hf2]
    norm_num
    simp only [receive_message_some c s 1024 hc hf2 hlen]
    have hnn : ¬(((s.take (1024 - 1)).length : Int) < 0) := by omega
    rw [if_neg hnn]
    rfl

/-- Claim C4, witness: with no acknowledgment the append fails. -/
theorem append_wal_record_returns_status_witness :
    append_wal_record ⟨true, 0⟩ ⟨true, true, none⟩ ⟨1⟩ ⟨1, 0, []⟩
      = (-1, ⟨true, 0⟩) :=
  (append_wal_record_returns_status ⟨true, 0⟩ ⟨true, true, none⟩ ⟨1⟩ ⟨1, 0, []⟩
    rfl (by decide)).1 rfl

/-- Helper form of the worker step used by the fire-and-forget claim. -/
theorem worker_process_one_pop (cl : SKClient) (q : List (TimelineId × WalRecord))
    (env : SKEnv) (tl : TimelineId) (r : WalRecord) (hc : cl.connected = true)
    (hf : 0 ≤ cl.socket_fd) :
    worker_process_one ⟨cl, (tl, r) :: q⟩ env = ⟨cl, q⟩ := by
  show SKPipeline.mk (append_wal_record cl env tl r).2 q = ⟨cl, q⟩
  rw [append_wal_record_client_eq cl env tl r hc hf]

/-- Claim C10: `append_wal_record_async` returns success (0)
unconditionally for every pipeline state, timeline and record, and the
worker's processing of a request on a connected client leaves nothing
behind but the popped queue and the unchanged connection — the status of
the network append (and any committed LSN) is computed into the request
object, which is deleted, so the caller can never observe it. -/
theorem async_append_fire_and_forget :
    (∀ (p : SKPipeline) (tl : TimelineId) (r : WalRecord),
      (append_wal_record_async p tl r).1 = 0) ∧
    (∀ (cl : SKClient) (q : List (TimelineId × WalRecord)) (env : SKEnv)
        (tl : TimelineId) (r : WalRecord),
      cl.connected = true → 0 ≤ cl.socket_fd →
      worker_process_one ⟨cl, (tl, r) :: q⟩ env = ⟨cl, q⟩) := by
  constructor
  · intro p tl r
    rfl
  · intro cl q env tl r hc hf
    exact worker_process_one_pop cl q env tl r hc hf

/-! ## Page-cache lemmas (towards claims C1 and C2) -/

theorem findPage_cons_ne (e : Nat × CachedPage) (rest : List (Nat × CachedPage))
    (k : Nat) (h : e.1 ≠ k) : findPage (e :: rest) k = findPage rest k := by
  simp [findPage, h]

theorem findPage_eq_none_iff (m : List (Nat × CachedPage)) (k : Nat) :
    findPage m k = none ↔ k ∉ m.map Prod.fst := by
  induction m with
  | nil => simp [findPage]
  | cons e rest ih =>
      by_cases h : e.1 = k
      · simp [findPage, h]
      · simp [findPage, h, ih, Ne.symm h]

theorem findPage_isSome_of_mem (m : List (Nat × CachedPage)) (k : Nat)
    (hk : k ∈ m.map Prod.fst) : ∃ p, findPage m k = some p := by
  cases h : findPage m k with
  | none => exact absurd hk ((findPage_eq_none_iff m k).mp h)
  | some p => exact ⟨p, rfl⟩

theorem touchPage_map_fst (m : List (Nat × CachedPage)) (k now : Nat) :
    (touchPage m k now).map Prod.fst = m.map Prod.fst := by
  induction m with
  | nil => rfl
  | cons e rest ih =>
      by_cases h : e.1 = k
      · simp [touchPage, h] at ih ⊢
        exact ih
      · simp [touchPage, h] at ih ⊢
        exact ih

theorem touchPage_length (m : List (Nat × CachedPage)) (k now : Nat) :
    (touchPage m k now).length = m.length := by
  simp [touchPage]

theorem findPage_touchPage_ne (m : List (Nat × CachedPage)) (k now j : Nat)
    (hjk : j ≠ k) : findPage (touchPage m k now) j = findPage m j := by
  induction m with
  | nil => rfl
  | cons e rest ih =>
      by_cases hek : e.1 = k
      · have hej : e.1 ≠ j := fun h => hjk (by rw [← h, hek])
        simp [touchPage, findPage, hek, hej, hjk, Ne.symm hjk] at ih ⊢
        exact ih
      · by_cases hej : e.1 = j
        · simp [touchPage, findPage, hek, hej, hjk, Ne.symm hjk]
        · simp [touchPage, findPage, hek, hej] at ih ⊢
          exact ih

theorem findPage_touchPage_self (m : List (Nat × CachedPage)) (k now : Nat)
    (p : CachedPage) (hp : findPage m k = some p) :
    findPage (touchPage m k now) k = some { p with last_access := now } := by
  induction m with
  | nil => simp [findPage] at hp
  | cons e rest ih =>
      by_cases hek : e.1 = k
      · simp [findPage, hek] at hp
        subst hp
        simp [touchPage, findPage, hek]
      · simp only [findPage, if_neg hek] at hp
        simp [touchPage, findPage, hek]
        exact ih hp

theorem eraseKey_map_fst (m : List (Nat × CachedPage)) (k : Nat) :
    (eraseKey m k).map Prod.fst = (m.map Prod.fst).filter (fun j => j ≠ k) := by
  induction m with
  | nil => rfl
  | cons e rest ih =>
      by_cases h : e.1 = k
      · simp [eraseKey, List.filter, h] at ih ⊢
        exact ih
      · simp [eraseKey, List.filter, h] at ih ⊢
        exact ih

theorem findPage_eraseKey (m : List (Nat × CachedPage)) (k j : Nat)
    (hjk : j ≠ k) : findPage (eraseKey m k) j = findPage m j := by
  induction m with
  | nil => rfl
  | cons e rest ih =>
      by_cases h : e.1 = k
      · have hej : e.1 ≠ j := fun he => hjk (he ▸ h)
        simp [eraseKey, List.filter_cons, findPage, h, hej, hjk, Ne.symm hjk]
          at ih ⊢
        exact ih
      · by_cases hej : e.1 = j
        · simp [eraseKey, List.filter_cons, findPage, h, hej, hjk]
        · simp [eraseKey, List.filter_cons, findPage, h, hej] at ih ⊢
          exact ih

theorem findPage_eraseKey_self (m : List (Nat × CachedPage)) (k : Nat) :
    findPage (eraseKey m k) k = none := by
  rw [findPage_eq_none_iff, eraseKey_map_fst]
  simp

theorem eraseKey_eq_self (m : List (Nat × CachedPage)) (k : Nat)
    (h : k ∉ m.map Prod.fst) : eraseKey m k = m := by
  rw [eraseKey, List.filter_eq_self]
  intro e he
  simp only [decide_eq_true_eq]
  intro hek
  exact h (hek ▸ List.mem_map_of_mem Prod.fst he)

theorem length_eraseKey_add_one (m : List (Nat × CachedPage)) (k : Nat)
    (hnd : (m.map Prod.fst).Nodup) (hk : k ∈ m.map Prod.fst) :
    (eraseKey m k).length + 1 = m.length := by
  induction m with
  | nil => simp at hk
  | cons e rest ih =>
      simp only [List.map_cons, List.nodup_cons] at hnd
      by_cases h : e.1 = k
      · have hkr : k ∉ rest.map Prod.fst := h ▸ hnd.1
        have hstep : eraseKey (e :: rest) k = eraseKey rest k := by
          simp [eraseKey, List.filter_cons, h]
        rw [hstep, eraseKey_eq_self rest k hkr]
        simp
      · have hkr : k ∈ rest.map Prod.fst := by
          simp only [List.map_cons, List.mem_cons] at hk
          rcases hk with h1 | h1
          · exact absurd h1.symm h
          · exact h1
        have hstep : eraseKey (e :: rest) k = e :: eraseKey rest k := by
          simp [eraseKey, List.filter_cons, h]
        rw [hstep]
        simp only [List.length_cons]
        have := ih hnd.2 hkr
        omega

theorem getLastD_mem (l : List Nat) (h : l ≠ []) : l.getLastD 0 ∈ l := by
  rw [List.getLastD_eq_getLast?, List.getLast?_eq_getLast l h]
  simp [List.getLast_mem]

/-- Eviction erases the key from both containers and leaves the other
cache fields alone (a dirty flush only advances `current_lsn`). -/
theorem evict_state (st : HaState) (k : Nat) :
    (evict_page_from_cache st k).1.page_cache = eraseKey st.page_cache k ∧
    (evict_page_from_cache st k).1.lru_list
      = st.lru_list.filter (fun j => j ≠ k) := by
  unfold evict_page_from_cache
  cases hf : findPage st.page_cache k with
  | none =>
      constructor
      · exact (eraseKey_eq_self st.page_cache k
          ((findPage_eq_none_iff _ _).mp hf)).symm
      · rfl
  | some page =>
      by_cases hd : page.dirty
      · simp [hd, write_page_to_safekeeper]
      · simp [hd]

/-- A cache hit only refreshes the hit entry's timestamp; `lru_list`
keeps its order. -/
theorem cacheStep_hit (st : HaState) (pid : PageId) (now : Nat)
    (fetched : Option (List Nat)) (p : CachedPage)
    (hp : findPage st.page_cache (page_key pid) = some p) :
    cacheStep st (.read pid now fetched) =
      { st with page_cache := touchPage st.page_cache (page_key pid) now } := by
  unfold cacheStep read_page_from_cache_or_pageserver
  simp only [hp]

/-- A miss whose remote fetch fails leaves the cache untouched. -/
theorem cacheStep_miss_fail (st : HaState) (pid : PageId) (now : Nat)
    (hp : findPage st.page_cache (page_key pid) = none) :
    cacheStep st (.read pid now none) = st := by
  unfold cacheStep read_page_from_cache_or_pageserver
  simp only [hp]

/-- A successfully fetched miss below capacity inserts without any
eviction. -/
theorem cacheStep_miss_insert_lt (st : HaState) (pid : PageId) (now : Nat)
    (data : List Nat) (hp : findPage st.page_cache (page_key pid) = none)
    (hlen : st.page_cache.length < MAX_CACHED_PAGES) :
    cacheStep st (.read pid now (some data)) =
      { st with
          page_cache := (page_key pid,
            { page_id := pid, data := data, lsn := 0, dirty := false,
              last_access := now }) :: st.page_cache,
          lru_list := page_key pid :: st.lru_list } := by
  unfold cacheStep read_page_from_cache_or_pageserver
  simp only [hp, if_neg (not_le.mpr hlen)]

/-- A successfully fetched miss at (or above) capacity first evicts the
back of `lru_list`, then inserts. -/
theorem cacheStep_miss_insert_full (st : HaState) (pid : PageId) (now : Nat)
    (data : List Nat) (hp : findPage st.page_cache (page_key pid) = none)
    (hlen : MAX_CACHED_PAGES ≤ st.page_cache.length) :
    cacheStep st (.read pid now (some data)) =
      { (evict_page_from_cache st (st.lru_list.getLastD 0)).1 with
          page_cache := (page_key pid,
            { page_id := pid, data := data, lsn := 0, dirty := false,
              last_access := now })
            :: (evict_page_from_cache st (st.lru_list.getLastD 0)).1.page_cache,
          lru_list := page_key pid
            :: (evict_page_from_cache st (st.lru_list.getLastD 0)).1.lru_list } := by
  unfold cacheStep read_page_from_cache_or_pageserver
  simp only [hp, if_pos hlen]

/-- Every cache interaction preserves the structural invariant — in
particular the size bound. -/
theorem cacheStep_inv (st : HaState) (op : CacheOp) (h : CacheInv st) :
    CacheInv (cacheStep st op) := by
  obtain ⟨hperm, hnd, hlen⟩ := h
  obtain ⟨pid, now, fetched⟩ := op
  cases hp : findPage st.page_cache (page_key pid) with
  | some p =>
      rw [cacheStep_hit st pid now fetched p hp]
      exact ⟨by simpa [touchPage_map_fst] using hperm,
        by simpa [touchPage_map_fst] using hnd,
        by simpa [touchPage_length] using hlen⟩
  | none =>
      have hkey : page_key pid ∉ st.page_cache.map Prod.fst :=
        (findPage_eq_none_iff _ _).mp hp
      cases fetched with
      | none =>
          rw [cacheStep_miss_fail st pid now hp]
          exact ⟨hperm, hnd, hlen⟩
      | some data =>
          by_cases hfull : MAX_CACHED_PAGES ≤ st.page_cache.length
          · have hb_mem_lru : st.lru_list.getLastD 0 ∈ st.lru_list := by
              apply getLastD_mem
              intro hnil
              have := hperm.length_eq
              rw [hnil] at this
              simp at this
              rw [← this] at hfull
              simp [MAX_CACHED_PAGES] at hfull
            have hb_mem : st.lru_list.getLastD 0 ∈ st.page_cache.map Prod.fst :=
              hperm.mem_iff.mp hb_mem_lru
            rw [cacheStep_miss_insert_full st pid now data hp hfull]
            obtain ⟨hec, hel⟩ := evict_state st (st.lru_list.getLastD 0)
            refine ⟨?_, ?_, ?_⟩
            · simp only [hec, hel, List.map_cons, eraseKey_map_fst]
              exact (hperm.filter _).cons _
            · simp only [hec, List.map_cons, List.nodup_cons, eraseKey_map_fst]
              refine ⟨?_, hnd.filter _⟩
              intro hmem
              exact hkey (List.mem_of_mem_filter hmem)
            · simp only [hec, List.length_cons]
              have := length_eraseKey_add_one st.page_cache
                (st.lru_list.getLastD 0) hnd hb_mem
              omega
          · rw [cacheStep_miss_insert_lt st pid now data hp (not_le.mp hfull)]
            refine ⟨?_, ?_, ?_⟩
            · simpa using hperm.cons (page_key pid)
            · simp only [List.map_cons, List.nodup_cons]
              exact ⟨hkey, hnd⟩
            · simp only [List.length_cons]
              omega

theorem runCache_inv (ops : List CacheOp) :
    ∀ st : HaState, CacheInv st → CacheInv (runCache st ops) := by
  induction ops with
  | nil => exact fun st h => h
  | cons op rest ih =>
      intro st h
      exact ih (cacheStep st op) (cacheStep_inv st op h)

theorem initHa_inv : CacheInv initHa := by
  refine ⟨List.Perm.refl _, ?_, ?_⟩ <;> simp [initHa, MAX_CACHED_PAGES]

theorem page_key_zero (k : Nat) : page_key ⟨0, k⟩ = k := by
  simp [page_key]

theorem fullCache_map_fst (n : Nat) :
    (fullCache n).map Prod.fst = (List.range n).reverse := by
  rw [fullCache, List.map_map]
  exact List.map_id' (List.range n).reverse

theorem fullState_length (n : Nat) : (fullState n).page_cache.length = n := by
  show (fullCache n).length = n
  rw [fullCache, List.length_map, List.length_reverse, List.length_range]

theorem fullState_inv (n : Nat) (hn : n ≤ MAX_CACHED_PAGES) :
    CacheInv (fullState n) := by
  refine ⟨?_, ?_, ?_⟩
  · rw [show (fullState n).page_cache = fullCache n from rfl, fullCache_map_fst]
    exact List.Perm.refl _
  · rw [show (fullState n).page_cache = fullCache n from rfl, fullCache_map_fst,
      List.nodup_reverse]
    exact List.nodup_range n
  · simpa [fullState, fullCache] using hn

theorem findPage_fullCache_ge (n k : Nat) (h : n ≤ k) :
    findPage (fullCache n) k = none := by
  rw [findPage_eq_none_iff, fullCache_map_fst]
  simp only [List.mem_reverse, List.mem_range]
  omega

theorem findPage_fullState_none (n k : Nat) (h : n ≤ k) :
    findPage (fullState n).page_cache (page_key ⟨0, k⟩) = none := by
  rw [page_key_zero]
  show findPage (fullCache n) k = none
  exact findPage_fullCache_ge n k h

theorem findPage_fullCache_lt (n k : Nat) (h : k < n) :
    findPage (fullCache n) k = some (pageAt k k) := by
  induction n with
  | zero => omega
  | succ n ih =>
      have hstep : fullCache (n + 1) = (n, pageAt n n) :: fullCache n := by
        simp [fullCache, List.range_succ]
      rw [hstep]
      by_cases hk : n = k
      · subst hk
        simp [findPage]
      · simp only [findPage, if_neg hk]
        exact ih (by omega)

/-- Claim C1 (amended): across every sequence of reads the cache never
holds more than `MAX_CACHED_PAGES` entries, and an insertion performed
at capacity evicts exactly one entry — the back of `lru_list`, i.e. the
least recently INSERTED key; since cache hits refresh `last_access`
without repositioning the entry in `lru_list`, the evicted entry is not
in general the one with the oldest `last_access`. -/
theorem cache_bound_and_lru_eviction :
    (∀ ops : List CacheOp,
      (runCache initHa ops).page_cache.length ≤ MAX_CACHED_PAGES) ∧
    (∀ (st : HaState) (pid : PageId) (now : Nat) (data : List Nat),
      CacheInv st →
      st.page_cache.length = MAX_CACHED_PAGES →
      findPage st.page_cache (page_key pid) = none →
      (cacheStep st (.read pid now (some data))).page_cache.length
        = MAX_CACHED_PAGES ∧
      findPage (cacheStep st (.read pid now (some data))).page_cache
        (st.lru_list.getLastD 0) = none ∧
      (∀ k, k ≠ st.lru_list.getLastD 0 → k ≠ page_key pid →
        findPage (cacheStep st (.read pid now (some data))).page_cache k
          = findPage st.page_cache k)) := by
  constructor
  · intro ops
    exact (runCache_inv ops initHa initHa_inv).2.2
  · intro st pid now data hinv hsize hp
    obtain ⟨hperm, hnd, hlen⟩ := hinv
    have hfull : MAX_CACHED_PAGES ≤ st.page_cache.length := le_of_eq hsize.symm
    have hb_mem_lru : st.lru_list.getLastD 0 ∈ st.lru_list := by
      apply getLastD_mem
      intro hnil
      rw [hnil] at hperm
      have hkeys := hperm.length_eq
      simp only [List.length_nil, List.length_map] at hkeys
      rw [hsize] at hkeys
      simp [MAX_CACHED_PAGES] at hkeys
    have hb_mem : st.lru_list.getLastD 0 ∈ st.page_cache.map Prod.fst :=
      hperm.mem_iff.mp hb_mem_lru
    have hbk : st.lru_list.getLastD 0 ≠ page_key pid :=
      fun h => ((findPage_eq_none_iff _ _).mp hp) (h ▸ hb_mem)
    rw [cacheStep_miss_insert_full st pid now data hp hfull]
    obtain ⟨hec, hel⟩ := evict_state st (st.lru_list.getLastD 0)
    refine ⟨?_, ?_, ?_⟩
    · simp only [hec, List.length_cons]
      have := length_eraseKey_add_one st.page_cache
        (st.lru_list.getLastD 0) hnd hb_mem
      omega
    · simp only [hec, findPage]
      rw [if_neg (fun h => hbk h.symm)]
      exact findPage_eraseKey_self st.page_cache (st.lru_list.getLastD 0)
    · intro k hkb hkkey
      simp only [hec, findPage]
      rw [if_neg (fun h => hkkey h.symm)]
      exact findPage_eraseKey st.page_cache (st.lru_list.getLastD 0) k hkb

theorem fullState_page_cache (n : Nat) : (fullState n).page_cache = fullCache n :=
  rfl

theorem fullState_lru_list (n : Nat) :
    (fullState n).lru_list = (List.range n).reverse :=
  rfl

theorem fillOps_succ (n : Nat) :
    fillOps (n + 1) = fillOps n ++ [CacheOp.read ⟨0, n⟩ n (some [])] := by
  simp [fillOps, List.range_succ]

theorem fullCache_succ (n : Nat) :
    fullCache (n + 1) = (n, pageAt n n) :: fullCache n := by
  simp [fullCache, List.range_succ]

theorem runCache_append_one (st : HaState) (ops : List CacheOp) (op : CacheOp) :
    runCache st (ops ++ [op]) = cacheStep (runCache st ops) op := by
  simp [runCache, List.foldl_append]

theorem range_reverse_back (n : Nat) (h : 0 < n) :
    (List.range n).reverse.getLastD 0 = 0 := by
  rw [List.getLastD_eq_getLast?, List.getLast?_reverse]
  cases n with
  | zero => omega
  | succ m =>
      rw [List.range_succ_eq_map]
      simp

/-- Filling an empty cache with `n ≤ MAX_CACHED_PAGES` fresh pages
produces exactly the expected state: every insertion is a miss below
capacity. -/
theorem runCache_fillOps (n : Nat) (hn : n ≤ MAX_CACHED_PAGES) :
    runCache initHa (fillOps n) = fullState n := by
  induction n with
  | zero => rfl
  | succ n ih =>
      have hn' : n ≤ MAX_CACHED_PAGES := by omega
      rw [fillOps_succ, runCache_append_one, ih hn']
      have hfind : findPage (fullState n).page_cache (page_key ⟨0, n⟩) = none :=
        findPage_fullState_none n n le_rfl
      have hlt : (fullState n).page_cache.length < MAX_CACHED_PAGES := by
        rw [fullState_length]
        omega
      rw [cacheStep_miss_insert_lt _ _ _ _ hfind hlt, page_key_zero]
      simp [fullState, fullCache_succ, List.range_succ, pageAt]

/-- After filling to capacity, the hit on page 0 at time 5000 only
refreshes that entry's timestamp. -/
theorem ceState1_eq :
    ceState1 = { fullState MAX_CACHED_PAGES with
        page_cache := touchPage (fullState MAX_CACHED_PAGES).page_cache 0 5000 } := by
  rw [ceState1, runCache_append_one, runCache_fillOps MAX_CACHED_PAGES le_rfl]
  have hfind : findPage (fullState MAX_CACHED_PAGES).page_cache (page_key ⟨0, 0⟩)
      = some (pageAt 0 0) := by
    rw [page_key_zero, fullState_page_cache]
    exact findPage_fullCache_lt MAX_CACHED_PAGES 0 (by norm_num [MAX_CACHED_PAGES])
  rw [cacheStep_hit _ _ _ _ _ hfind, page_key_zero]

theorem ceState1_find0 :
    findPage ceState1.page_cache 0
      = some { page_id := ⟨0, 0⟩, data := [], lsn := 0, dirty := false,
               last_access := 5000 } := by
  rw [ceState1_eq]
  show findPage (touchPage (fullState MAX_CACHED_PAGES).page_cache 0 5000) 0 = _
  rw [findPage_touchPage_self (fullState MAX_CACHED_PAGES).page_cache 0 5000
    (pageAt 0 0)
    (by rw [fullState_page_cache]
        exact findPage_fullCache_lt MAX_CACHED_PAGES 0 (by norm_num [MAX_CACHED_PAGES]))]
  rfl

theorem ceState1_find1 :
    findPage ceState1.page_cache 1
      = some { page_id := ⟨0, 1⟩, data := [], lsn := 0, dirty := false,
               last_access := 1 } := by
  rw [ceState1_eq]
  show findPage (touchPage (fullState MAX_CACHED_PAGES).page_cache 0 5000) 1 = _
  rw [findPage_touchPage_ne _ 0 5000 1 (by omega), fullState_page_cache]
  rw [findPage_fullCache_lt MAX_CACHED_PAGES 1 (by norm_num [MAX_CACHED_PAGES])]
  rfl

theorem ceState1_length : ceState1.page_cache.length = MAX_CACHED_PAGES := by
  rw [ceState1_eq]
  show (touchPage (fullState MAX_CACHED_PAGES).page_cache 0 5000).length = _
  rw [touchPage_length]
  exact fullState_length MAX_CACHED_PAGES

theorem ceState1_find2000 :
    findPage ceState1.page_cache (page_key ⟨0, 2000⟩) = none := by
  rw [ceState1_eq, page_key_zero]
  show findPage (touchPage (fullState MAX_CACHED_PAGES).page_cache 0 5000) 2000 = _
  rw [findPage_touchPage_ne _ 0 5000 2000 (by omega), fullState_page_cache]
  exact findPage_fullCache_ge MAX_CACHED_PAGES 2000 (by norm_num [MAX_CACHED_PAGES])

theorem ceState1_back : ceState1.lru_list.getLastD 0 = 0 := by
  have hlru : ceState1.lru_list = (List.range MAX_CACHED_PAGES).reverse := by
    rw [ceState1_eq]
    exact fullState_lru_list MAX_CACHED_PAGES
  rw [hlru]
  exact range_reverse_back MAX_CACHED_PAGES (by norm_num [MAX_CACHED_PAGES])

theorem ceState2_step :
    ceState2 = { (evict_page_from_cache ceState1 0).1 with
        page_cache := (page_key ⟨0, 2000⟩,
          { page_id := ⟨0, 2000⟩, data := [], lsn := 0, dirty := false,
            last_access := 5001 }) :: (evict_page_from_cache ceState1 0).1.page_cache,
        lru_list := page_key ⟨0, 2000⟩
          :: (evict_page_from_cache ceState1 0).1.lru_list } := by
  have hfull : MAX_CACHED_PAGES ≤ ceState1.page_cache.length :=
    le_of_eq ceState1_length.symm
  have hstep := cacheStep_miss_insert_full ceState1 ⟨0, 2000⟩ 5001 []
    ceState1_find2000 hfull
  rw [ceState1_back] at hstep
  exact hstep

theorem ceState2_find0 : findPage ceState2.page_cache 0 = none := by
  rw [ceState2_step]
  obtain ⟨hec, hel⟩ := evict_state ceState1 0
  show findPage ((page_key ⟨0, 2000⟩,
      { page_id := ⟨0, 2000⟩, data := [], lsn := 0, dirty := false,
        last_access := 5001 }) :: (evict_page_from_cache ceState1 0).1.page_cache)
      0 = none
  rw [hec, page_key_zero, findPage_cons_ne]
  · exact findPage_eraseKey_self ceState1.page_cache 0
  · norm_num

theorem ceState2_find1 :
    findPage ceState2.page_cache 1
      = some { page_id := ⟨0, 1⟩, data := [], lsn := 0, dirty := false,
               last_access := 1 } := by
  rw [ceState2_step]
  obtain ⟨hec, hel⟩ := evict_state ceState1 0
  show findPage ((page_key ⟨0, 2000⟩,
      { page_id := ⟨0, 2000⟩, data := [], lsn := 0, dirty := false,
        last_access := 5001 }) :: (evict_page_from_cache ceState1 0).1.page_cache)
      1 = _
  rw [hec, page_key_zero, findPage_cons_ne]
  · rw [findPage_eraseKey ceState1.page_cache 0 1 (by omega)]
    exact ceState1_find1
  · norm_num

/-- Claim C1, counterexample: fill the cache to its capacity of 1024
pages at times 0…1023, then hit page 0 at time 5000 — making its
`last_access` the NEWEST in the cache while `lru_list` keeps it at the
back — and insert one more page at time 5001.  The eviction removes
page 0 (`last_access` 5000) while page 1 (`last_access` 1) stays: the
evicted entry is not the one with the oldest `last_access`, refuting the
strict-LRU-by-`last_access` choice. -/
theorem cache_eviction_not_oldest_last_access :
    findPage ceState1.page_cache 0
      = some { page_id := ⟨0, 0⟩, data := [], lsn := 0, dirty := false,
               last_access := 5000 } ∧
    findPage ceState1.page_cache 1
      = some { page_id := ⟨0, 1⟩, data := [], lsn := 0, dirty := false,
               last_access := 1 } ∧
    ceState1.page_cache.length = MAX_CACHED_PAGES ∧
    findPage ceState2.page_cache 0 = none ∧
    findPage ceState2.page_cache 1
      = some { page_id := ⟨0, 1⟩, data := [], lsn := 0, dirty := false,
               last_access := 1 } ∧
    (1 : Nat) < 5000 :=
  ⟨ceState1_find0, ceState1_find1, ceState1_length, ceState2_find0,
   ceState2_find1, by norm_num⟩

/-- Claim C1, witness: the bound holds on the empty sequence, and one
concrete at-capacity insertion keeps the cache at exactly
`MAX_CACHED_PAGES` entries. -/
theorem cache_bound_and_lru_eviction_witness :
    (runCache initHa []).page_cache.length ≤ MAX_CACHED_PAGES ∧
    (cacheStep (fullState 1024) (.read ⟨0, 2000⟩ 9 (some []))).page_cache.length
      = MAX_CACHED_PAGES :=
  ⟨cache_bound_and_lru_eviction.1 [],
   (cache_bound_and_lru_eviction.2 (fullState 1024) ⟨0, 2000⟩ 9 []
      (fullState_inv 1024 (Nat.le_refl 1024))
      (fullState_length 1024)
      (findPage_fullState_none 1024 2000 (by omega))).1⟩

/-! ## Claim C2: write-back of dirty pages -/

/-- Claim C2, counterexample: a handler holding one dirty cached page is
destroyed — the destructor discards the page without any write-back (it
emits no append at all), where the claim demands exactly one write-back
per dirty page at cache teardown. -/
theorem destructor_discards_dirty_without_writeback :
    dirtyPageEx.dirty = true ∧
    findPage dirtyStateEx.page_cache 0 = some dirtyPageEx ∧
    (ha_serverless_destruct dirtyStateEx).2 = [] ∧
    (ha_serverless_destruct dirtyStateEx).1.page_cache = [] :=
  ⟨rfl, rfl, rfl, rfl⟩

/-- Claim C2 (amended): evicting a dirty cached page triggers exactly
one write-back — a single append carrying the page's current data —
before the entry is discarded, and a clean eviction appends nothing; but
handler destruction discards every cached page, dirty or not, with no
write-back (teardown flushing is `close`'s job, not the destructor's). -/
theorem dirty_eviction_single_writeback (st : HaState) (k : Nat)
    (page : CachedPage) (hfind : findPage st.page_cache k = some page) :
    (page.dirty = true →
      (evict_page_from_cache st k).2
        = [WalEvent.append st.current_timeline st.current_lsn page.data]) ∧
    (page.dirty = false → (evict_page_from_cache st k).2 = []) ∧
    findPage (evict_page_from_cache st k).1.page_cache k = none ∧
    (ha_serverless_destruct st).2 = [] := by
  refine ⟨?_, ?_, ?_, rfl⟩
  · intro hd
    unfold evict_page_from_cache
    rw [hfind]
    simp [hd, write_page_to_safekeeper]
  · intro hd
    unfold evict_page_from_cache
    rw [hfind]
    simp [hd]
  · obtain ⟨hec, hel⟩ := evict_state st k
    rw [hec]
    exact findPage_eraseKey_self st.page_cache k

/-- Claim C2, witness: evicting a concrete dirty page appends exactly
its bytes once. -/
theorem dirty_eviction_single_writeback_witness :
    (evict_page_from_cache dirtyStateEx 0).2
      = [WalEvent.append ⟨2⟩ 10 [1, 2]] :=
  (dirty_eviction_single_writeback dirtyStateEx 0 dirtyPageEx rfl).1 rfl

/-- Claim C10, witness. -/
theorem async_append_fire_and_forget_witness :
    (append_wal_record_async ⟨⟨true, 0⟩, []⟩ ⟨3⟩ ⟨1, 0, []⟩).1 = 0 ∧
    worker_process_one ⟨⟨true, 0⟩, [(⟨3⟩, ⟨1, 0, []⟩)]⟩ ⟨true, false, none⟩
      = ⟨⟨true, 0⟩, []⟩ :=
  ⟨async_append_fire_and_forget.1 ⟨⟨true, 0⟩, []⟩ ⟨3⟩ ⟨1, 0, []⟩,
   async_append_fire_and_forget.2 ⟨true, 0⟩ [] ⟨true, false, none⟩ ⟨3⟩ ⟨1, 0, []⟩
     rfl (by decide)⟩

end Serverless
